import Mathlib

/-!
# Verification of the CSV-to-JSON ingestion pipeline

Shallow embedding of `utils/csvParser.js` (the custom CSV parser, row
validator/router, ingestion loop and age-distribution reporter of the
`csv-to-json-api` repository), together with proofs settling the frozen
claims about it.

JavaScript values flowing through the parser are either strings or plain
objects; they are embedded as the inductive type `Jv` below, with objects
represented as association lists of key/value pairs in insertion order
(exactly the enumeration order of a JS object literal built by repeated
property assignment).  Machine numbers appear only as the parsed `age`
(an integer, embedded as `Int`) and the bucket counts/percentages
(embedded as `Nat`, with `Math.round` on the non-negative ratio
`count/total*100` modeled as exact rational round-half-up).
-/

/-- Whitespace for the purposes of `String.prototype.trim` and `parseInt`
(space, tab, line terminators, vertical tab, form feed, NBSP, BOM). -/
def isJsWhitespace (c : Char) : Bool :=
  c = ' ' ∨ c = '\t' ∨ c = '\n' ∨ c = '\r' ∨
  c = '\x0b' ∨ c = '\x0c' ∨ c = ' ' ∨ c = '﻿'

/-- Embedding of `String.prototype.trim()`: drop leading and trailing
whitespace. -/
def jsTrim (s : String) : String :=
  List.asString (((s.data.dropWhile isJsWhitespace).reverse.dropWhile
    isJsWhitespace).reverse)

/-- Split a character list at every occurrence of `sep`, keeping empty
pieces — the behavior of JS `String.prototype.split` with a one-character
separator (so `"".split` gives `[""]`, `".".split('.')` gives
`["", ""]`). `cur` is the piece accumulated so far. -/
def splitOnChar (sep : Char) : List Char → String → List String
  | [], cur => [cur]
  | c :: rest, cur =>
    if c = sep then cur :: splitOnChar sep rest ""
    else splitOnChar sep rest (cur.push c)

/-- `keyPath.split('.')` from `setNestedProperty`. -/
def pathOf (k : String) : List String :=
  splitOnChar '.' k.data ""

/-- Effect of `data.replace(/\r\n/g, '\n').replace(/\r/g, '\n')`: every
`\r\n` pair becomes one `\n`, every remaining `\r` becomes `\n`. -/
def normalizeNewlines : List Char → List Char
  | [] => []
  | '\r' :: '\n' :: rest => '\n' :: normalizeNewlines rest
  | '\r' :: rest => '\n' :: normalizeNewlines rest
  | c :: rest => c :: normalizeNewlines rest

/-- Character scan of `splitCSVLine`: `field` is the buffer built so far,
the `Bool` is the `inQuotes` flag.  A `""` pair inside quotes emits one
literal quote; any other quote toggles the flag; a comma outside quotes
ends the field; every other character is appended. -/
def splitCSVAux : List Char → String → Bool → List String
  | [], field, _ => [field]
  | '"' :: '"' :: rest2, field, true => splitCSVAux rest2 (field.push '"') true
  | c :: rest, field, inQuotes =>
    if c = '"' then splitCSVAux rest field (!inQuotes)
    else if c = ',' ∧ inQuotes = false then
      field :: splitCSVAux rest "" false
    else
      splitCSVAux rest (field.push c) inQuotes

/-- `splitCSVLine(line)`: tokenize and trim every emitted field. -/
def splitCSVLine (line : String) : List String :=
  (splitCSVAux line.data "" false).map jsTrim

/-- JS values reaching the parser/validator: strings and plain objects
(association list in property-insertion order). -/
inductive Jv where
  | str : String → Jv
  | obj : List (String × Jv) → Jv

/-- A row object under construction (`row` in `parseCSV`): the top-level
property list of a JS object. -/
abbrev Record := List (String × Jv)

/-- Property read `o[k]` on an object. -/
def objGet (o : Record) (k : String) : Option Jv :=
  match o with
  | [] => none
  | kv :: rest => if kv.1 = k then some kv.2 else objGet rest k

/-- Property write `o[k] = v` on an object: overwrite in place if the key
exists, append otherwise (JS property-insertion order). -/
def objSet (o : Record) (k : String) (v : Jv) : Record :=
  match o with
  | [] => [(k, v)]
  | kv :: rest => if kv.1 = k then (k, v) :: rest else kv :: objSet rest k v

/-- `setNestedProperty(obj, keyPath, value)` with the path already split
on dots: walk the path, creating an empty object at any step whose
current value is absent or not an object (`!current[key] || typeof
current[key] !== 'object'` — note a non-object value is silently
overwritten), and assign `value` at the last key. -/
def setNested (o : Record) : List String → Jv → Record
  | [], _ => o
  | [k], v => objSet o k v
  | k :: k2 :: rest, v =>
    let child : Record :=
      match objGet o k with
      | some (Jv.obj c) => c
      | _ => []
    objSet o k (Jv.obj (setNested child (k2 :: rest) v))

/-- Read back the value at a dot path (already split): descend through
object properties; reading into a string or a missing property gives
nothing. -/
def objGetPath : Jv → List String → Option Jv
  | v, [] => some v
  | Jv.str _, _ :: _ => none
  | Jv.obj o, k :: rest =>
    match objGet o k with
    | some v => objGetPath v rest
    | none => none

/-- One hexadecimal digit character (lowercase), for `\u00XX` escapes. -/
def hexDigitChar (n : Nat) : Char :=
  if n < 10 then Char.ofNat (48 + n) else Char.ofNat (97 + n - 10)

/-- Four-digit lowercase hex rendering of a code point, for `\u00XX`
escapes in `JSON.stringify`. -/
def hex4 (n : Nat) : String :=
  List.asString [hexDigitChar (n / 4096 % 16), hexDigitChar (n / 256 % 16),
    hexDigitChar (n / 16 % 16), hexDigitChar (n % 16)]

/-- The escape `JSON.stringify` applies to one character inside a string
literal. -/
def escapeJsonChar (c : Char) : String :=
  if c = '"' then "\\\""
  else if c = '\\' then "\\\\"
  else if c = '\n' then "\\n"
  else if c = '\t' then "\\t"
  else if c = '\r' then "\\r"
  else if c = '\x08' then "\\b"
  else if c = '\x0c' then "\\f"
  else if c.toNat < 32 then "\\u" ++ hex4 c.toNat
  else String.singleton c

/-- A JSON string literal: quotes around the escaped characters. -/
def jsonQuote (s : String) : String :=
  "\"" ++ String.join (s.data.map escapeJsonChar) ++ "\""

mutual
/-- `JSON.stringify` on an embedded JS value (no spacing argument). -/
def jsonStringify : Jv → String
  | Jv.str s => jsonQuote s
  | Jv.obj o => "\x7b" ++ jsonStringifyList o ++ "\x7d"
/-- Comma-separated `"key":value` members of an object literal. -/
def jsonStringifyList : List (String × Jv) → String
  | [] => ""
  | [(k, v)] => jsonQuote k ++ ":" ++ jsonStringify v
  | (k, v) :: kv :: rest =>
    jsonQuote k ++ ":" ++ jsonStringify v ++ "," ++
      jsonStringifyList (kv :: rest)
end

/-- `JSON.stringify(val).replace(/["{}]/g, '')`: drop every double quote
and brace character. -/
def stripJsonChars (s : String) : String :=
  List.asString (s.data.filter (fun c => ¬(c = '"' ∨ c = '\x7b' ∨ c = '\x7d')))

/-- The `anyNonEmpty` check of `parseCSV`: some top-level value of the
row is non-empty — for a string, non-whitespace content; for an object,
its stringification with quotes/braces removed has non-whitespace
content (note property NAMES survive this stripping, so an object with
all-empty leaves but a named key still counts as non-empty). -/
def anyNonEmpty (row : Record) : Bool :=
  row.any (fun kv =>
    match kv.2 with
    | Jv.str s => (jsTrim s).length > 0
    | Jv.obj _ => (jsTrim (stripJsonChars (jsonStringify kv.2))).length > 0)

/-- The `__extras` object of a row: surplus fields beyond the header,
keyed `_extra_1`, `_extra_2`, … in positional order (`j - headers.length
+ 1` in the source loop). -/
def extrasOf (surplus : List String) : Record :=
  surplus.enum.map (fun p => ("_extra_" ++ toString (p.1 + 1), Jv.str p.2))

/-- Building one row object in `parseCSV`: pad short field lists with
empty strings up to the header length, assign each header's dot path,
then store any surplus fields under `__extras`. -/
def buildRow (headers : List String) (fields : List String) : Record :=
  let padded := fields ++ List.replicate (headers.length - fields.length) ""
  let base := (headers.zip padded).foldl
    (fun o kf => setNested o (pathOf kf.1) (Jv.str kf.2)) []
  if headers.length < fields.length then
    let extra := extrasOf (fields.drop headers.length)
    if extra.length > 0 then objSet base "__extras" (Jv.obj extra) else base
  else base

/-- Newline-normalized, blank-filtered lines of the input
(`rawLines.filter(l => l.trim().length > 0)`). -/
def csvLines (data : String) : List String :=
  (splitOnChar '\n' (normalizeNewlines data.data) "").filter
    (fun l => (jsTrim l).length > 0)

/-- `parseCSV(data)`: empty/whitespace-only input gives no headers and no
records; otherwise the first non-blank line is the header (fields
trimmed) and every further non-blank line builds a row object, dropping
rows whose `anyNonEmpty` check fails. -/
def parseCSV (data : String) : List String × List Record :=
  if jsTrim data = "" then ([], [])
  else
    match csvLines data with
    | [] => ([], [])
    | headerLine :: dataLines =>
      let headers := (splitCSVLine headerLine).map jsTrim
      ((headers),
        (dataLines.map (fun raw => buildRow headers (splitCSVLine raw))).filter
          anyNonEmpty)

/-- The data lines an ingestion run iterates over: every non-blank line
after the header line. -/
def dataLinesOf (data : String) : List String :=
  if jsTrim data = "" then []
  else
    match csvLines data with
    | [] => []
    | _ :: rest => rest

/-- Value of a character as a digit (decimal `48..57`, lowercase hex
`97..102`, uppercase hex `65..70` in character codes), as `parseInt`
reads digit characters. -/
def hexDigitVal (c : Char) : Option Nat :=
  let n := c.toNat
  if 48 ≤ n ∧ n ≤ 57 then some (n - 48)
  else if 97 ≤ n ∧ n ≤ 102 then some (n - 97 + 10)
  else if 65 ≤ n ∧ n ≤ 70 then some (n - 65 + 10)
  else none

/-- Consume the longest prefix of digits valid in `radix`, accumulating
the value; `found` records whether at least one digit was read.  No digit
at all is `parseInt`'s NaN. -/
def takeDigits (radix : Nat) : List Char → Nat → Bool → Option Nat
  | [], acc, found => if found then some acc else none
  | c :: rest, acc, found =>
    match hexDigitVal c with
    | some d =>
      if d < radix then takeDigits radix rest (acc * radix + d) true
      else if found then some acc else none
    | none => if found then some acc else none

/-- Optional sign at the front of the numeral (`parseInt` step). -/
def splitSign : List Char → Bool × List Char
  | '-' :: r => (true, r)
  | '+' :: r => (false, r)
  | r => (false, r)

/-- Radix inference of `parseInt` with no radix argument: a `0x`/`0X`
prefix selects base 16, anything else base 10. -/
def splitRadix : List Char → Nat × List Char
  | '0' :: 'x' :: r => (16, r)
  | '0' :: 'X' :: r => (16, r)
  | r => (10, r)

/-- JS `parseInt(s)` with no radix argument: skip leading whitespace,
read an optional sign, infer the radix (hex on a `0x`/`0X` prefix),
consume the longest digit prefix and ignore the rest; `none` is NaN.
The result is embedded as an exact `Int` (the double rounding of very
long numerals is outside the claims considered here). -/
def parseIntJS (s : String) : Option Int :=
  let cs := s.data.dropWhile isJsWhitespace
  let sr := splitSign cs
  let rb := splitRadix sr.2
  match takeDigits rb.1 rb.2 0 false with
  | none => none
  | some n => some (if sr.1 then -(n : Int) else (n : Int))

/-- JS truthiness of a parser value: the empty string is falsy, any other
string and every object is truthy. -/
def jvTruthy : Jv → Bool
  | Jv.str s => !(s = "")
  | Jv.obj _ => true

/-- JS `String(v)` on a parser value: a string is itself, a plain object
renders as `[object Object]`. -/
def jsString : Jv → String
  | Jv.str s => s
  | Jv.obj _ => "[object Object]"

/-- `rec?.name?.firstName ?? ''`-style read: a two-level optional property
access defaulting to the empty string (a string at the first level has no
properties, so the default applies). -/
def getName2 (rec : Record) (k1 : String) (k2 : String) : Jv :=
  match objGet rec k1 with
  | some (Jv.obj o) =>
    match objGet o k2 with
    | some v => v
    | none => Jv.str ""
  | _ => Jv.str ""

/-- `rec?.age ?? ''`-style read: a top-level property defaulting to the
empty string. -/
def getTop (rec : Record) (k : String) : Jv :=
  match objGet rec k with
  | some v => v
  | none => Jv.str ""

/-- Outcome of validating and routing one record in the `uploadToDB`
loop: either a skip reason, or the routed `(name, age, address,
additional)` destination fields. -/
inductive RowOutcome where
  | skip : String → RowOutcome
  | valid : String → Int → Record → Record → RowOutcome

/-- The per-record validation and routing of `uploadToDB`: `firstName`
and `lastName` must be truthy (the source tests `!firstName ||
!lastName` on the raw values); the age must `parseInt` to a number;
then `name` is the trimmed names joined by a space, `address` is the
`address` subtree when it is an object (else empty), and the rest
destructuring removes the top-level `name`, `age` and `address` keys. -/
def routeRecord (rec : Record) : RowOutcome :=
  let firstName := getName2 rec "name" "firstName"
  let lastName := getName2 rec "name" "lastName"
  let ageRaw := getTop rec "age"
  if !jvTruthy firstName || !jvTruthy lastName then
    RowOutcome.skip "Missing name.firstName or name.lastName"
  else
    match parseIntJS (jsTrim (jsString ageRaw)) with
    | none => RowOutcome.skip ("Invalid age: \"" ++ jsString ageRaw ++ "\"")
    | some age =>
      let name := jsTrim (jsString firstName) ++ " " ++ jsTrim (jsString lastName)
      let addressObj : Record :=
        match objGet rec "address" with
        | some (Jv.obj o) => o
        | _ => []
      let rest := rec.filter
        (fun kv => ¬(kv.1 = "name" ∨ kv.1 = "age" ∨ kv.1 = "address"))
      RowOutcome.valid name age addressObj rest

/-- The summary object returned by `uploadToDB`: inserted count, skip
list (1-based row ordinal with reason) and total parsed records. -/
structure Summary where
  insertedCount : Nat
  skipped : List (Nat × String)
  totalRows : Nat
deriving DecidableEq

/-- The record loop of `uploadToDB`.  The store is an oracle `db` mapping
the row ordinal and the routed fields to `none` (insertion succeeded) or
`some msg` (the insertion threw with message `msg`); a store failure is
recorded as a skip `DB insert error: <msg>` and the loop continues. -/
def processRows (db : Nat → String → Int → Record → Record → Option String) :
    List Record → Nat → Nat → List (Nat × String) → Nat × List (Nat × String)
  | [], _, ins, skipped => (ins, skipped)
  | rec :: rest, lineIndex, ins, skipped =>
    match routeRecord rec with
    | RowOutcome.skip reason =>
      processRows db rest (lineIndex + 1) ins (skipped ++ [(lineIndex, reason)])
    | RowOutcome.valid name age addr additional =>
      match db lineIndex name age addr additional with
      | none => processRows db rest (lineIndex + 1) (ins + 1) skipped
      | some msg =>
        processRows db rest (lineIndex + 1) ins
          (skipped ++ [(lineIndex, "DB insert error: " ++ msg)])

/-- `uploadToDB`: the ingestion entry point.  `filePath` is the
`CSV_FILE_PATH` configuration (`none` when unset; the empty string is
also falsy in the source check); `fileExists` embeds `fs.existsSync` and
`readFile` embeds `fs.readFileSync` on the configured path — `Except.ok`
is the file text, `Except.error` a thrown read error (`EISDIR`,
`EACCES`, …).  The read sits outside every try/catch in the source, so
its error propagates out of the entry point exactly like the
missing-configuration throw; a missing file and an empty parse return
early summaries; otherwise the record loop runs from ordinal 1 against
the store collaborator `db`. -/
def uploadToDB (filePath : Option String) (fileExists : Bool)
    (readFile : Except String String)
    (db : Nat → String → Int → Record → Record → Option String) :
    Except String Summary :=
  match filePath with
  | none => Except.error "CSV_FILE_PATH not set in .env"
  | some fp =>
    if fp = "" then Except.error "CSV_FILE_PATH not set in .env"
    else if fileExists = false then Except.ok ⟨0, [], 0⟩
    else
      match readFile with
      | Except.error e => Except.error e
      | Except.ok fileContent =>
        if (parseCSV fileContent).1.length = 0 ∨
            (parseCSV fileContent).2.length = 0 then
          Except.ok ⟨0, [], (parseCSV fileContent).2.length⟩
        else
          Except.ok ⟨(processRows db (parseCSV fileContent).2 1 0 []).1,
            (processRows db (parseCSV fileContent).2 1 0 []).2,
            (parseCSV fileContent).2.length⟩

/-- The four bucket counters of `printAgeDistribution` (`<20`, `20–40`,
`40–60`, `>60` in source order). -/
structure AgeGroups where
  g1 : Nat
  g2 : Nat
  g3 : Nat
  g4 : Nat
deriving DecidableEq

/-- One step of the bucket-counting loop: the `if`/`else if` chain of
`printAgeDistribution`, exactly as ordered in the source. -/
def bucketStep (g : AgeGroups) (age : Int) : AgeGroups :=
  if age ≤ 20 then { g with g1 := g.g1 + 1 }
  else if 20 < age ∧ age ≤ 40 then { g with g2 := g.g2 + 1 }
  else if 40 < age ∧ age ≤ 60 then { g with g3 := g.g3 + 1 }
  else if 60 < age then { g with g4 := g.g4 + 1 }
  else g

/-- Bucket counts over every stored age. -/
def countGroups (ages : List Int) : AgeGroups :=
  ages.foldl bucketStep ⟨0, 0, 0, 0⟩

/-- `Math.round((val / total) * 100)` for non-negative integers, as exact
round-half-up on the rational value: `⌊val*100/total + 1/2⌋ =
(200*val + total) / (2*total)` in natural division. -/
def jsRoundPct (val : Nat) (total : Nat) : Nat :=
  (200 * val + total) / (2 * total)

/-- The percentage table computed by `printAgeDistribution`: `none` for
an empty store (the source returns before computing anything), otherwise
the rounded percentage of each bucket in source order. -/
def ageDistribution (ages : List Int) : Option (Nat × Nat × Nat × Nat) :=
  if ages.length = 0 then none
  else
    let g := countGroups ages
    some (jsRoundPct g.g1 ages.length, jsRoundPct g.g2 ages.length,
      jsRoundPct g.g3 ages.length, jsRoundPct g.g4 ages.length)

/-- Round-half-up as the spec words it: `round(bucketCount / total *
100)` to the nearest integer, half up — the floor of the exact rational
value plus one half. -/
def specRoundHalfUp (val : Nat) (total : Nat) : Nat :=
  ⌊(val : ℚ) / (total : ℚ) * 100 + 1 / 2⌋₊

/-- The age-acceptance criterion exactly as claim C5 words it: a base-10
integer parsed from the leading characters (after an optional sign),
trailing non-numeric characters tolerated, failing only when no leading
numeric characters are present.  Stated for comparison with the source's
`parseInt` (which infers hexadecimal on a `0x`/`0X` prefix). -/
def specLeadingBase10 (s : String) : Option Int :=
  let sr := splitSign s.data
  match takeDigits 10 sr.2 0 false with
  | none => none
  | some n => some (if sr.1 then -(n : Int) else (n : Int))

/-- `p` is a (not necessarily proper) prefix of `q`, as a boolean on
segment lists. -/
def isPreB : List String → List String → Bool
  | [], _ => true
  | _ :: _, [] => false
  | a :: as, b :: bs => a = b && isPreB as bs

/-- Two dot paths are independent when neither is a prefix of the other
(in particular they are distinct). -/
def indepPath (p q : List String) : Prop :=
  isPreB p q = false ∧ isPreB q p = false

instance (p q : List String) : Decidable (indepPath p q) := by
  unfold indepPath; infer_instance

/-! ## Basic lemmas about the tokenizer and object operations -/

theorem splitCSVAux_ne_nil (cs : List Char) (f : String) (q : Bool) :
    splitCSVAux cs f q ≠ [] := by
  induction cs, f, q using splitCSVAux.induct <;> simp_all [splitCSVAux]
  split <;> simp_all

theorem splitCSVLine_ne_nil (line : String) : splitCSVLine line ≠ [] := by
  simpa [splitCSVLine] using splitCSVAux_ne_nil line.data "" false

theorem splitOnChar_ne_nil (sep : Char) (cs : List Char) (cur : String) :
    splitOnChar sep cs cur ≠ [] := by
  induction cs generalizing cur with
  | nil => simp [splitOnChar]
  | cons c rest ih => simp only [splitOnChar]; split <;> simp_all

theorem pathOf_ne_nil (k : String) : pathOf k ≠ [] :=
  splitOnChar_ne_nil '.' k.data ""

theorem objGet_objSet_self (o : Record) (k : String) (v : Jv) :
    objGet (objSet o k v) k = some v := by
  induction o with
  | nil => simp [objGet, objSet]
  | cons kv rest ih =>
    simp only [objSet]
    split
    · simp [objGet]
    · simp only [objGet]
      split
      · simp_all
      · exact ih

theorem objGet_objSet_ne (o : Record) (k k' : String) (v : Jv)
    (h : k' ≠ k) : objGet (objSet o k v) k' = objGet o k' := by
  induction o with
  | nil => simp [objGet, objSet]; exact fun h' => h h'.symm
  | cons kv rest ih =>
    simp only [objSet]
    split
    · simp only [objGet]
      split <;> simp_all
    · simp only [objGet]
      split <;> simp_all

theorem objGetPath_setNested_self (p : List String) (o : Record) (v : Jv)
    (hp : p ≠ []) :
    objGetPath (Jv.obj (setNested o p v)) p = some v := by
  induction p generalizing o with
  | nil => exact absurd rfl hp
  | cons k rest ih =>
    cases rest with
    | nil => simp [setNested, objGetPath, objGet_objSet_self]
    | cons k2 rest2 =>
      simp only [setNested, objGetPath, objGet_objSet_self]
      exact ih _ (by simp)

theorem objGetPath_setNested_frame (p : List String) (q : List String)
    (o : Record) (v : Jv)
    (hpq : isPreB p q = false) (hqp : isPreB q p = false) :
    objGetPath (Jv.obj (setNested o p v)) q = objGetPath (Jv.obj o) q := by
  induction p generalizing q o with
  | nil => simp [isPreB] at hpq
  | cons k ps ih =>
    cases q with
    | nil => simp [isPreB] at hqp
    | cons k' qs =>
      by_cases hk : k = k'
      · subst hk
        simp only [isPreB, decide_eq_true_eq] at hpq hqp
        simp at hpq hqp
        cases ps with
        | nil => simp [isPreB] at hpq
        | cons p2 ps2 =>
          cases qs with
          | nil => simp [isPreB] at hqp
          | cons q2 qs2 =>
            cases hog : objGet o k with
            | none =>
              simp only [setNested, hog, objGetPath, objGet_objSet_self]
              show objGetPath (Jv.obj (setNested [] (p2 :: ps2) v)) (q2 :: qs2) = none
              rw [ih _ _ hpq hqp]
              simp [objGetPath, objGet]
            | some w =>
              cases w with
              | str s =>
                simp only [setNested, hog, objGetPath, objGet_objSet_self]
                show objGetPath (Jv.obj (setNested [] (p2 :: ps2) v)) (q2 :: qs2) = none
                rw [ih _ _ hpq hqp]
                simp [objGetPath, objGet]
              | obj c =>
                simp only [setNested, hog, objGetPath, objGet_objSet_self]
                exact ih _ _ hpq hqp
      · have key : ∀ w, objGetPath (Jv.obj (objSet o k w)) (k' :: qs) =
            objGetPath (Jv.obj o) (k' :: qs) := by
          intro w
          simp only [objGetPath, objGet_objSet_ne o k k' w (fun h => hk h.symm)]
        cases ps with
        | nil => simpa only [setNested] using key v
        | cons p2 ps2 => simpa only [setNested] using key _

/-- The path-assignment fold of `buildRow`, abstracted over already-split
path/value pairs. -/
def setAll (o : Record) (pairs : List (List String × Jv)) : Record :=
  pairs.foldl (fun acc pv => setNested acc pv.1 pv.2) o

theorem indepPath_symm {p q : List String} (h : indepPath p q) : indepPath q p :=
  ⟨h.2, h.1⟩

theorem objGetPath_setAll_frame (pairs : List (List String × Jv))
    (o : Record) (q : List String)
    (hq : ∀ pv ∈ pairs, indepPath pv.1 q) :
    objGetPath (Jv.obj (setAll o pairs)) q = objGetPath (Jv.obj o) q := by
  induction pairs generalizing o with
  | nil => rfl
  | cons pv rest ih =>
    show objGetPath (Jv.obj (setAll (setNested o pv.1 pv.2) rest)) q = _
    rw [ih _ (fun x hx => hq x (List.mem_cons_of_mem _ hx))]
    exact objGetPath_setNested_frame _ _ _ _
      (hq pv (List.mem_cons_self _ _)).1 (hq pv (List.mem_cons_self _ _)).2

theorem objGetPath_setAll_self (pairs : List (List String × Jv)) (o : Record)
    (hne : ∀ pv ∈ pairs, pv.1 ≠ [])
    (hind : pairs.Pairwise (fun a b => indepPath a.1 b.1)) :
    ∀ pv ∈ pairs, objGetPath (Jv.obj (setAll o pairs)) pv.1 = some pv.2 := by
  induction pairs generalizing o with
  | nil => intro pv h; cases h
  | cons p0 rest ih =>
    intro pv hpv
    rcases List.mem_cons.mp hpv with h | h
    · subst h
      show objGetPath (Jv.obj (setAll (setNested o pv.1 pv.2) rest)) pv.1 = _
      rw [objGetPath_setAll_frame _ _ _
        (fun x hx => indepPath_symm ((List.pairwise_cons.mp hind).1 x hx))]
      exact objGetPath_setNested_self _ _ _ (hne pv (List.mem_cons_self _ _))
    · exact ih (setNested o p0.1 p0.2)
        (fun x hx => hne x (List.mem_cons_of_mem _ hx))
        (List.pairwise_cons.mp hind).2 pv h

theorem objGetPath_objSet_ne_head (o : Record) (k0 k : String) (w : Jv)
    (rest : List String) (h : k ≠ k0) :
    objGetPath (Jv.obj (objSet o k0 w)) (k :: rest) =
      objGetPath (Jv.obj o) (k :: rest) := by
  simp only [objGetPath, objGet_objSet_ne o k0 k w h]

theorem buildRow_base_read (headers fields : List String)
    (hind : (headers.map pathOf).Pairwise indepPath) :
    ∀ kf ∈ headers.zip (fields ++ List.replicate (headers.length - fields.length) ""),
      objGetPath
        (Jv.obj ((headers.zip (fields ++ List.replicate (headers.length - fields.length) "")).foldl
          (fun o kf => setNested o (pathOf kf.1) (Jv.str kf.2)) []))
        (pathOf kf.1) = some (Jv.str kf.2) := by
  intro kf hkf
  set padded := fields ++ List.replicate (headers.length - fields.length) "" with hp
  have hzipfst : (headers.zip padded).map Prod.fst = headers :=
    List.map_fst_zip _ _ (by simp [hp]; omega)
  have hfold : (headers.zip padded).foldl
      (fun o kf => setNested o (pathOf kf.1) (Jv.str kf.2)) ([] : Record)
      = setAll [] ((headers.zip padded).map (fun kf => (pathOf kf.1, Jv.str kf.2))) := by
    rw [setAll, List.foldl_map]
  rw [hfold]
  have hpair : ((headers.zip padded).map
      (fun kf => (pathOf kf.1, Jv.str kf.2))).Pairwise
      (fun a b => indepPath a.1 b.1) := by
    have h3 : ((headers.zip padded).map Prod.fst).Pairwise
        (fun a b => indepPath (pathOf a) (pathOf b)) := by
      rw [hzipfst]
      exact List.pairwise_map.mp hind
    have hzip : (headers.zip padded).Pairwise
        (fun a b => indepPath (pathOf a.1) (pathOf b.1)) :=
      List.Pairwise.of_map Prod.fst (fun a b h => h) h3
    exact List.pairwise_map.mpr hzip
  exact objGetPath_setAll_self _ []
    (fun pv hpv => by
      rcases List.mem_map.mp hpv with ⟨x, _, rfl⟩
      exact pathOf_ne_nil _)
    hpair _ (List.mem_map.mpr ⟨kf, hkf, rfl⟩)

theorem buildRow_read (headers fields : List String)
    (hind : (headers.map pathOf).Pairwise indepPath)
    (hx : headers.length < fields.length →
      ∀ k ∈ headers, (pathOf k).head? ≠ some "__extras") :
    ∀ kf ∈ headers.zip (fields ++ List.replicate (headers.length - fields.length) ""),
      objGetPath (Jv.obj (buildRow headers fields)) (pathOf kf.1) =
        some (Jv.str kf.2) := by
  intro kf hkf
  have hbase := buildRow_base_read headers fields hind kf hkf
  by_cases hlt : headers.length < fields.length
  · have hhead : (pathOf kf.1).head? ≠ some "__extras" :=
      hx hlt kf.1 (List.of_mem_zip hkf).1
    obtain ⟨h0, t0, hpath⟩ := List.exists_cons_of_ne_nil (pathOf_ne_nil kf.1)
    have hne0 : h0 ≠ "__extras" := by
      rw [hpath] at hhead; simpa using hhead
    unfold buildRow
    simp only [if_pos hlt]
    split
    · rw [hpath, objGetPath_objSet_ne_head _ _ _ _ _ hne0, ← hpath]
      exact hbase
    · exact hbase
  · unfold buildRow
    simp only [if_neg hlt]
    exact hbase

/-! ## Structure lemmas for the ingestion loop and the parser -/

theorem extrasOf_length (surplus : List String) :
    (extrasOf surplus).length = surplus.length := by
  simp [extrasOf]

theorem extrasOf_get (surplus : List String) (j : Nat)
    (hj : j < (extrasOf surplus).length) :
    (extrasOf surplus).get ⟨j, hj⟩ =
      ("_extra_" ++ toString (j + 1),
        Jv.str (surplus.get ⟨j, by simpa [extrasOf_length] using hj⟩)) := by
  simp [extrasOf]

theorem buildRow_extras (headers fields : List String)
    (h : headers.length < fields.length) :
    objGet (buildRow headers fields) "__extras" =
      some (Jv.obj (extrasOf (fields.drop headers.length))) := by
  unfold buildRow
  simp only [if_pos h]
  have hlen : (extrasOf (fields.drop headers.length)).length > 0 := by
    simp [extrasOf_length]; omega
  rw [if_pos hlen]
  exact objGet_objSet_self _ _ _

theorem processRows_len
    (db : Nat → String → Int → Record → Record → Option String)
    (recs : List Record) (i ins : Nat) (sk : List (Nat × String)) :
    (processRows db recs i ins sk).1 + (processRows db recs i ins sk).2.length
      = ins + sk.length + recs.length := by
  induction recs generalizing i ins sk with
  | nil => simp [processRows]
  | cons rec rest ih =>
    cases hroute : routeRecord rec with
    | skip reason =>
      simp only [processRows, hroute]
      rw [ih]; simp; omega
    | valid name age addr additional =>
      cases hdb : db i name age addr additional with
      | none =>
        simp only [processRows, hroute, hdb]
        rw [ih]; simp; omega
      | some msg =>
        simp only [processRows, hroute, hdb]
        rw [ih]; simp; omega

theorem parseCSV_record_mem (t : String) (rec : Record)
    (h : rec ∈ (parseCSV t).2) :
    ∃ line ∈ dataLinesOf t,
      rec = buildRow (parseCSV t).1 (splitCSVLine line) := by
  unfold parseCSV dataLinesOf at *
  by_cases he : jsTrim t = ""
  · simp [he] at h
  · simp only [if_neg he] at h ⊢
    obtain ⟨headerLine, dataLines, hcl⟩ : ∃ hd tl, csvLines t = hd :: tl := by
      cases hcl : csvLines t with
      | nil => rw [hcl] at h; simp at h
      | cons a b => exact ⟨a, b, rfl⟩
    rw [hcl] at h ⊢
    have h2 : rec ∈ (dataLines.map
        (fun raw => buildRow ((splitCSVLine headerLine).map jsTrim)
          (splitCSVLine raw))) :=
      List.mem_of_mem_filter h
    rcases List.mem_map.mp h2 with ⟨line, hline, rfl⟩
    exact ⟨line, hline, rfl⟩

/-- Decimal value of an all-digit character list, most significant first
(the value `parseInt` accumulates in base 10). -/
def digitsToNat (ds : List Char) : Nat :=
  ds.foldl (fun a c => a * 10 + (c.toNat - 48)) 0

theorem takeDigits_all_digits (ds : List Char) (acc : Nat) (found : Bool)
    (hd : ∀ c ∈ ds, 48 ≤ c.toNat ∧ c.toNat ≤ 57)
    (hne : found = true ∨ ds ≠ []) :
    takeDigits 10 ds acc found =
      some (ds.foldl (fun a c => a * 10 + (c.toNat - 48)) acc) := by
  induction ds generalizing acc found with
  | nil =>
    rcases hne with h | h
    · simp [takeDigits, h]
    · exact absurd rfl h
  | cons c rest ih =>
    have hc := hd c (List.mem_cons_self _ _)
    have hval : hexDigitVal c = some (c.toNat - 48) := by
      unfold hexDigitVal
      rw [if_pos ⟨hc.1, hc.2⟩]
    simp only [takeDigits, hval]
    rw [if_pos (by omega)]
    rw [ih _ _ (fun x hx => hd x (List.mem_cons_of_mem _ hx)) (Or.inl rfl)]
    rfl

theorem splitRadix_of_digits (ds : List Char)
    (hd : ∀ c ∈ ds, 48 ≤ c.toNat ∧ c.toNat ≤ 57) :
    splitRadix ds = (10, ds) := by
  unfold splitRadix
  split
  · exact absurd (hd 'x' (by simp)) (by decide)
  · exact absurd (hd 'X' (by simp)) (by decide)
  · rfl

theorem parseIntJS_neg_digits (s : String) (ds : List Char)
    (hs : s.data = '-' :: ds) (hne : ds ≠ [])
    (hd : ∀ c ∈ ds, 48 ≤ c.toNat ∧ c.toNat ≤ 57) :
    parseIntJS s = some (-(digitsToNat ds : Int)) := by
  unfold parseIntJS
  rw [hs]
  have hminus : isJsWhitespace '-' = false := by decide
  rw [List.dropWhile_cons_of_neg (by simp [hminus])]
  simp only [splitSign]
  rw [splitRadix_of_digits ds hd]
  rw [takeDigits_all_digits ds 0 false hd (Or.inr hne)]
  simp [digitsToNat]

/-! ## Lemmas about the age-distribution reporter -/

theorem bucketStep_sum (g : AgeGroups) (age : Int) :
    (bucketStep g age).g1 + (bucketStep g age).g2 + (bucketStep g age).g3 +
      (bucketStep g age).g4 = g.g1 + g.g2 + g.g3 + g.g4 + 1 := by
  unfold bucketStep
  split_ifs <;> simp_all <;> omega

theorem countGroups_sum (ages : List Int) :
    (countGroups ages).g1 + (countGroups ages).g2 + (countGroups ages).g3 +
      (countGroups ages).g4 = ages.length := by
  suffices h : ∀ g : AgeGroups, (ages.foldl bucketStep g).g1 +
      (ages.foldl bucketStep g).g2 + (ages.foldl bucketStep g).g3 +
      (ages.foldl bucketStep g).g4 = g.g1 + g.g2 + g.g3 + g.g4 + ages.length by
    simpa [countGroups] using h ⟨0, 0, 0, 0⟩
  induction ages with
  | nil => intro g; simp
  | cons a rest ih =>
    intro g
    simp only [List.foldl_cons, List.length_cons]
    rw [ih (bucketStep g a), bucketStep_sum]
    omega

theorem bucketStep_le20 (g : AgeGroups) (age : Int) (h : age ≤ 20) :
    bucketStep g age = { g with g1 := g.g1 + 1 } := by
  unfold bucketStep
  rw [if_pos h]

theorem jsRoundPct_eq_specRoundHalfUp (val total : Nat) (h : 0 < total) :
    jsRoundPct val total = specRoundHalfUp val total := by
  unfold jsRoundPct specRoundHalfUp
  have htz : ((total : ℚ)) ≠ 0 := by positivity
  have h1 : (val : ℚ) / (total : ℚ) * 100 + 1 / 2 =
      ((200 * val + total : ℕ) : ℚ) / ((2 * total : ℕ) : ℚ) := by
    push_cast
    field_simp
    ring
  rw [h1, Nat.floor_div_eq_div]

theorem parseCSV_headers_nil (t : String) (h : (parseCSV t).1 = []) :
    (parseCSV t).2 = [] := by
  unfold parseCSV at *
  by_cases he : jsTrim t = ""
  · simp [he]
  · simp only [if_neg he] at h ⊢
    cases hcl : csvLines t with
    | nil => rfl
    | cons a b =>
      exfalso
      have hne := splitCSVLine_ne_nil a
      rw [hcl] at h
      simp only [List.map_eq_nil_iff] at h
      exact hne h

/-! ## Claim theorems -/

/-- C4: the line tokenizer handles a quoted field with an embedded comma
and an embedded escaped (doubled) quote, splits on the comma outside the
quotes and trims the fields: the input line `"A, ""B""",C` yields exactly
the two fields `A, "B"` and `C`. -/
theorem c4_tokenizer_quotes :
    splitCSVLine ("\"A, \"\"B\"\"\",C") = ["A, \"B\"", "C"] := by
  rfl

/-- C1: whenever `uploadToDB` returns a summary, the inserted count plus
the number of skipped rows equals the total number of parsed records —
each record is counted exactly once, either as inserted or as skipped. -/
theorem c1_summary_invariant (filePath : Option String) (fileExists : Bool)
    (readFile : Except String String)
    (db : Nat → String → Int → Record → Record → Option String) (s : Summary)
    (h : uploadToDB filePath fileExists readFile db = Except.ok s) :
    s.insertedCount + s.skipped.length = s.totalRows := by
  cases filePath with
  | none => simp [uploadToDB] at h
  | some fp =>
    cases readFile with
    | error e =>
      simp only [uploadToDB] at h
      split at h
      · cases h
      · split at h
        · injection h with h'
          subst h'
          simp
        · cases h
    | ok fileContent =>
      simp only [uploadToDB] at h
      split at h
      · cases h
      · split at h
        · injection h with h'
          subst h'
          simp
        · split at h
          · next hcond =>
            injection h with h'
            subst h'
            simp only
            rcases hcond with h1 | h2
            · rw [parseCSV_headers_nil _ (List.length_eq_zero.mp h1)]
              simp
            · simp [h2]
          · injection h with h'
            subst h'
            simpa using processRows_len db (parseCSV fileContent).2 1 0 []

/-- C1 witness: a concrete two-row run (one row inserted, one skipped for
a non-numeric age) returning a summary, on which the invariant holds. -/
theorem c1_summary_invariant_witness :
    uploadToDB (some "./data/users.csv") true
      (Except.ok ("name.firstName,name.lastName,age\nRohit,Prasad,35\nRohit,Prasad,abc"))
      (fun _ _ _ _ _ => none) =
      Except.ok ⟨1, [(2, "Invalid age: \"abc\"")], 2⟩ ∧
    (1 : Nat) + [((2 : Nat), "Invalid age: \"abc\"")].length = 2 :=
  ⟨rfl, c1_summary_invariant (some "./data/users.csv") true
    (Except.ok ("name.firstName,name.lastName,age\nRohit,Prasad,35\nRohit,Prasad,abc"))
    (fun _ _ _ _ _ => none) ⟨1, [(2, "Invalid age: \"abc\"")], 2⟩ rfl⟩

/-- C8 counterexample: with a configured, existing path whose read
throws — e.g. `EISDIR` when the path names a directory, since
`fs.readFileSync` sits outside every try/catch — the entry point
propagates a non-configuration error, so "throws only for the
missing-configuration case" fails. -/
theorem c8_counterexample :
    uploadToDB (some "./data") true
      (Except.error "EISDIR: illegal operation on a directory, read")
      (fun _ _ _ _ _ => none) =
      Except.error "EISDIR: illegal operation on a directory, read" ∧
    (some "./data" : Option String) ≠ none ∧
    (some "./data" : Option String) ≠ some "" :=
  ⟨rfl, by decide, by decide⟩

/-- C8 (amended): the ingestion entry point throws in exactly two
cases — a missing configuration (unset or empty path, with the fixed
message) or an uncaught read error on an existing file, which
propagates as-is.  Whenever the path is configured and the file is
absent or readable, the run completes normally with a summary, for
every content and every store oracle: malformed content, per-row
validation failures and store insertion failures never abort the run. -/
theorem c8_error_propagation (filePath : Option String) (fileExists : Bool)
    (readFile : Except String String)
    (db : Nat → String → Int → Record → Record → Option String) :
    ((filePath = none ∨ filePath = some "") →
      uploadToDB filePath fileExists readFile db =
        Except.error "CSV_FILE_PATH not set in .env") ∧
    (∀ e, uploadToDB filePath fileExists readFile db = Except.error e →
      ((filePath = none ∨ filePath = some "") ∧
        e = "CSV_FILE_PATH not set in .env") ∨
      (fileExists = true ∧ readFile = Except.error e)) ∧
    (¬(filePath = none ∨ filePath = some "") →
      (fileExists = false ∨ ∃ c, readFile = Except.ok c) →
      ∃ s, uploadToDB filePath fileExists readFile db = Except.ok s) := by
  refine ⟨?_, ?_, ?_⟩
  · rintro (rfl | rfl)
    · rfl
    · simp [uploadToDB]
  · intro e he
    cases filePath with
    | none =>
      left
      refine ⟨Or.inl rfl, ?_⟩
      injection he with h'
      exact h'.symm
    | some fp =>
      cases readFile with
      | error msg =>
        simp only [uploadToDB] at he
        split at he
        · next hfp =>
          left
          refine ⟨Or.inr (by rw [hfp]), ?_⟩
          injection he with h'
          exact h'.symm
        · split at he
          · cases he
          · next hex =>
            right
            injection he with h'
            refine ⟨?_, by rw [h']⟩
            cases fileExists
            · exact absurd rfl hex
            · rfl
      | ok fileContent =>
        simp only [uploadToDB] at he
        split at he
        · next hfp =>
          left
          refine ⟨Or.inr (by rw [hfp]), ?_⟩
          injection he with h'
          exact h'.symm
        · split at he
          · cases he
          · split at he
            · cases he
            · cases he
  · intro hconf hcase
    cases filePath with
    | none => exact absurd (Or.inl rfl) hconf
    | some fp =>
      have hfp : ¬fp = "" := fun h => hconf (Or.inr (by rw [h]))
      rcases hcase with hex | ⟨c, hc⟩
      · simp only [uploadToDB]
        rw [if_neg hfp, if_pos hex]
        exact ⟨_, rfl⟩
      · subst hc
        by_cases hex : fileExists = false
        · simp only [uploadToDB]
          rw [if_neg hfp, if_pos hex]
          exact ⟨_, rfl⟩
        · simp only [uploadToDB]
          rw [if_neg hfp, if_neg hex]
          split
          · exact ⟨_, rfl⟩
          · exact ⟨_, rfl⟩

/-- C8 witness: a configured path with a readable single-row file whose
store insertion fails — the run still completes normally, with the
store failure captured in the summary rather than thrown. -/
theorem c8_error_propagation_witness :
    ¬((some "./data/users.csv" : Option String) = none ∨
      (some "./data/users.csv" : Option String) = some "") ∧
    ((true : Bool) = false ∨ ∃ c : String,
      (Except.ok ("name.firstName,name.lastName,age\nRohit,Prasad,35") :
        Except String String) = Except.ok c) ∧
    (∃ s, uploadToDB (some "./data/users.csv") true
      (Except.ok ("name.firstName,name.lastName,age\nRohit,Prasad,35"))
      (fun _ _ _ _ _ => some "connection terminated") = Except.ok s) :=
  ⟨by simp, Or.inr ⟨_, rfl⟩,
    (c8_error_propagation (some "./data/users.csv") true
      (Except.ok ("name.firstName,name.lastName,age\nRohit,Prasad,35"))
      (fun _ _ _ _ _ => some "connection terminated")).2.2 (by simp)
      (Or.inr ⟨_, rfl⟩)⟩

theorem objGet_filter_of_false (o : Record) (p : String × Jv → Bool)
    (k : String) (hp : ∀ v, p (k, v) = false) :
    objGet (o.filter p) k = none := by
  induction o with
  | nil => rfl
  | cons kv rest ih =>
    rw [List.filter_cons]
    split
    · next hpkv =>
      simp only [objGet]
      rw [if_neg]
      · exact ih
      · intro hkv
        rw [show kv = (k, kv.2) by rw [← hkv]] at hpkv
        rw [hp kv.2] at hpkv
        cases hpkv
    · exact ih

theorem objGet_filter_of_true (o : Record) (p : String × Jv → Bool)
    (k : String) (hp : ∀ v, p (k, v) = true) :
    objGet (o.filter p) k = objGet o k := by
  induction o with
  | nil => rfl
  | cons kv rest ih =>
    rw [List.filter_cons]
    split
    · simp only [objGet]
      split
      · rfl
      · exact ih
    · next hpkv =>
      have hkv : ¬kv.1 = k := by
        intro hkv
        rw [show kv = (k, kv.2) by rw [← hkv]] at hpkv
        rw [hp kv.2] at hpkv
        exact hpkv rfl
      simp only [objGet, if_neg hkv]
      exact ih

/-- The record of the README's first sample row, with an `address`
subtree and a spare `gender` field. -/
def recPune : Record :=
  [("name", Jv.obj [("firstName", Jv.str "Rohit"), ("lastName", Jv.str "Prasad")]),
   ("age", Jv.str "35"),
   ("address", Jv.obj [("city", Jv.str "Pune")]),
   ("gender", Jv.str "male")]

/-- C2 counterexample: for a record carrying an `address` subtree, the
routed `additional` payload does NOT retain the `address` subtree — the
rest-destructuring in the source removes `name`, `age` AND `address`, so
`additional` holds only `gender` and has no `address` key, contrary to
the claim. -/
theorem c2_counterexample :
    routeRecord recPune = RowOutcome.valid ("Rohit Prasad") 35
      [("city", Jv.str "Pune")] [("gender", Jv.str "male")] ∧
    objGet recPune "address" = some (Jv.obj [("city", Jv.str "Pune")]) ∧
    objGet [("gender", Jv.str "male")] "address" = none :=
  ⟨rfl, rfl, rfl⟩

/-- C2 (amended): for every record that passes validation, the
`additional` payload is the record with the top-level `name`, `age` and
`address` keys removed: it never contains an `address` key, and every
other top-level key is preserved with its value. -/
theorem c2_additional_payload (rec : Record) (n : String) (a : Int)
    (ad r : Record) (h : routeRecord rec = RowOutcome.valid n a ad r) :
    objGet r "address" = none ∧
    ∀ k, ¬(k = "name" ∨ k = "age" ∨ k = "address") →
      objGet r k = objGet rec k := by
  simp only [routeRecord] at h
  split at h
  · cases h
  · split at h
    · cases h
    · injection h with h1 h2 h3 h4
      subst h4
      constructor
      · exact objGet_filter_of_false rec _ "address" (fun v => by simp)
      · intro k hk
        exact objGet_filter_of_true rec _ k (fun v => by simpa using hk)

/-- C2 witness: the amended statement instantiated on the sample record
(the routed additional payload is exactly the `gender` field). -/
theorem c2_additional_payload_witness :
    routeRecord recPune = RowOutcome.valid ("Rohit Prasad") 35
      [("city", Jv.str "Pune")] [("gender", Jv.str "male")] ∧
    (objGet [("gender", Jv.str "male")] "address" = none ∧
      ∀ k, ¬(k = "name" ∨ k = "age" ∨ k = "address") →
        objGet [("gender", Jv.str "male")] k = objGet recPune k) :=
  ⟨rfl, c2_additional_payload recPune ("Rohit Prasad") 35
    [("city", Jv.str "Pune")] [("gender", Jv.str "male")] rfl⟩

/-- A record whose `firstName` is a whitespace-only string — a value the
claim's trim-based criterion calls missing. -/
def recBlankFirst : Record :=
  [("name", Jv.obj [("firstName", Jv.str " "), ("lastName", Jv.str "X")]),
   ("age", Jv.str "5")]

/-- C6 counterexample: a whitespace-only `firstName` does NOT count as
missing in the source — the check `!firstName || !lastName` tests JS
truthiness of the raw (untrimmed) value, and `" "` is truthy.  The row is
routed as valid (with name `" X"`, the trimmed empty first name), not
skipped, although the claim's trimmed value is empty. -/
theorem c6_counterexample :
    jsTrim (jsString (getName2 recBlankFirst "name" "firstName")) = "" ∧
    routeRecord recBlankFirst = RowOutcome.valid (" X") 5 [] [] ∧
    routeRecord recBlankFirst ≠
      RowOutcome.skip "Missing name.firstName or name.lastName" :=
  ⟨rfl, rfl, fun h => RowOutcome.noConfusion h⟩

/-- C6 (amended): the missing-name skip fires exactly on JS falsiness of
the raw values — an absent field or the empty string (a whitespace-only
value passes, though the pipeline's tokenizer pre-trims every field so
the two criteria coincide on parser-produced records); when the row is
routed as valid, the validated name is the trimmed first name, a space,
and the trimmed last name. -/
theorem c6_name_validation (rec : Record) :
    ((jvTruthy (getName2 rec "name" "firstName") = false ∨
      jvTruthy (getName2 rec "name" "lastName") = false) →
      routeRecord rec = RowOutcome.skip "Missing name.firstName or name.lastName") ∧
    (∀ n a ad r, routeRecord rec = RowOutcome.valid n a ad r →
      n = jsTrim (jsString (getName2 rec "name" "firstName")) ++ " " ++
        jsTrim (jsString (getName2 rec "name" "lastName"))) := by
  constructor
  · intro h
    simp only [routeRecord]
    rw [if_pos]
    rcases h with h | h <;> simp [h]
  · intro n a ad r h
    simp only [routeRecord] at h
    split at h
    · cases h
    · split at h
      · cases h
      · injection h with h1 h2 h3 h4
        exact h1.symm

/-- C6 witness: Scenario C — a record with an empty `firstName` is
skipped with exactly the missing-name reason. -/
theorem c6_name_validation_witness :
    (jvTruthy (getName2
        [("name", Jv.obj [("firstName", Jv.str ""), ("lastName", Jv.str "Deshmukh")]),
         ("age", Jv.str "28")] "name" "firstName") = false ∨
      jvTruthy (getName2
        [("name", Jv.obj [("firstName", Jv.str ""), ("lastName", Jv.str "Deshmukh")]),
         ("age", Jv.str "28")] "name" "lastName") = false) ∧
    routeRecord
        [("name", Jv.obj [("firstName", Jv.str ""), ("lastName", Jv.str "Deshmukh")]),
         ("age", Jv.str "28")] =
      RowOutcome.skip "Missing name.firstName or name.lastName" :=
  ⟨Or.inl rfl,
    (c6_name_validation
      [("name", Jv.obj [("firstName", Jv.str ""), ("lastName", Jv.str "Deshmukh")]),
       ("age", Jv.str "28")]).1 (Or.inl rfl)⟩

/-- A record whose age field is `0x` — a hex prefix with no hex digits. -/
def recHexAge : Record :=
  [("name", Jv.obj [("firstName", Jv.str "A"), ("lastName", Jv.str "B")]),
   ("age", Jv.str "0x")]

/-- C5 counterexample: the claim's criterion (base-10 integer from the
leading characters, trailing non-numeric tolerated) accepts `"0x"` as 0
via its leading digit, but the source's `parseInt` with no radix treats
`0x` as an empty hexadecimal numeral (NaN) and skips the row with reason
`Invalid age: "0x"`. -/
theorem c5_counterexample :
    specLeadingBase10 (jsTrim ("0x")) = some 0 ∧
    routeRecord recHexAge = RowOutcome.skip ("Invalid age: \"0x\"") ∧
    processRows (fun _ _ _ _ _ => none) [recHexAge] 1 0 [] =
      (0, [(1, "Invalid age: \"0x\"")]) :=
  ⟨rfl, rfl, rfl⟩

/-- C5 (amended): with the name fields truthy, a row is skipped for its
age exactly when JS `parseInt` (no radix: optional sign, hex on a
`0x`/`0X` prefix, longest digit prefix, trailing characters tolerated)
yields NaN on the trimmed stringified value; the skip reason is exactly
`Invalid age: "<raw value>"` and the step leaves the inserted count
unchanged.  When `parseInt` yields a value, the row is routed as valid
with that integer age. -/
theorem c5_age_validation (rec : Record)
    (db : Nat → String → Int → Record → Record → Option String)
    (i ins : Nat) (sk : List (Nat × String))
    (h1 : jvTruthy (getName2 rec "name" "firstName") = true)
    (h2 : jvTruthy (getName2 rec "name" "lastName") = true) :
    (parseIntJS (jsTrim (jsString (getTop rec "age"))) = none →
      routeRecord rec = RowOutcome.skip
        ("Invalid age: \"" ++ jsString (getTop rec "age") ++ "\"") ∧
      processRows db [rec] i ins sk =
        (ins, sk ++ [(i, "Invalid age: \"" ++ jsString (getTop rec "age") ++ "\"")])) ∧
    (∀ a : Int, parseIntJS (jsTrim (jsString (getTop rec "age"))) = some a →
      ∃ n ad r, routeRecord rec = RowOutcome.valid n a ad r) := by
  constructor
  · intro hnone
    have hroute : routeRecord rec = RowOutcome.skip
        ("Invalid age: \"" ++ jsString (getTop rec "age") ++ "\"") := by
      simp only [routeRecord]
      rw [if_neg (by simp [h1, h2])]
      simp only [hnone]
    refine ⟨hroute, ?_⟩
    simp [processRows, hroute]
  · intro a ha
    simp only [routeRecord]
    rw [if_neg (by simp [h1, h2])]
    simp only [ha]
    exact ⟨_, _, _, rfl⟩

/-- C5 witness: Scenario B — the row `Rohit,Prasad,abc` is skipped with
reason exactly `Invalid age: "abc"` and the inserted count stays 0. -/
theorem c5_age_validation_witness :
    jvTruthy (getName2
      [("name", Jv.obj [("firstName", Jv.str "Rohit"), ("lastName", Jv.str "Prasad")]),
       ("age", Jv.str "abc")] "name" "firstName") = true ∧
    jvTruthy (getName2
      [("name", Jv.obj [("firstName", Jv.str "Rohit"), ("lastName", Jv.str "Prasad")]),
       ("age", Jv.str "abc")] "name" "lastName") = true ∧
    parseIntJS (jsTrim (jsString (getTop
      [("name", Jv.obj [("firstName", Jv.str "Rohit"), ("lastName", Jv.str "Prasad")]),
       ("age", Jv.str "abc")] "age"))) = none ∧
    (routeRecord
        [("name", Jv.obj [("firstName", Jv.str "Rohit"), ("lastName", Jv.str "Prasad")]),
         ("age", Jv.str "abc")] =
      RowOutcome.skip ("Invalid age: \"abc\"") ∧
     processRows (fun _ _ _ _ _ => none)
        [[("name", Jv.obj [("firstName", Jv.str "Rohit"), ("lastName", Jv.str "Prasad")]),
          ("age", Jv.str "abc")]] 1 0 [] =
      (0, [(1, "Invalid age: \"abc\"")])) :=
  ⟨rfl, rfl, rfl,
    (c5_age_validation
      [("name", Jv.obj [("firstName", Jv.str "Rohit"), ("lastName", Jv.str "Prasad")]),
       ("age", Jv.str "abc")]
      (fun _ _ _ _ _ => none) 1 0 [] rfl rfl).1 rfl⟩

/-- A record whose age field is `-0`: a minus sign followed by a digit. -/
def recNegZero : Record :=
  [("name", Jv.obj [("firstName", Jv.str "A"), ("lastName", Jv.str "B")]),
   ("age", Jv.str "-0")]

/-- C10 counterexample: `-0` starts with a minus sign followed by a
decimal digit, and validation succeeds — but the parsed age is 0, which
is not a negative integer, so the claim's "succeeds with a negative
integer age" fails on this input. -/
theorem c10_counterexample :
    routeRecord recNegZero = RowOutcome.valid ("A B") 0 [] [] ∧
    ¬((0 : Int) < 0) :=
  ⟨rfl, by decide⟩

/-- C10 (amended): the validator accepts negative ages — a record whose
trimmed age is a minus sign followed by decimal digits with nonzero
value (e.g. `-5`; `-0` parses to the non-negative 0) is routed as valid
with the negative integer age, the row reaches the store (inserted when
the store succeeds), and the distribution reporter counts every such
age in the `<20` bucket, whose branch `age <= 20` has no lower bound. -/
theorem c10_negative_ages (rec : Record) (ds : List Char)
    (h1 : jvTruthy (getName2 rec "name" "firstName") = true)
    (h2 : jvTruthy (getName2 rec "name" "lastName") = true)
    (hs : (jsTrim (jsString (getTop rec "age"))).data = '-' :: ds)
    (hne : ds ≠ [])
    (hd : ∀ c ∈ ds, 48 ≤ c.toNat ∧ c.toNat ≤ 57)
    (hnz : digitsToNat ds ≠ 0) :
    (∃ n ad r, routeRecord rec =
      RowOutcome.valid n (-(digitsToNat ds : Int)) ad r) ∧
    (-(digitsToNat ds : Int) < 0) ∧
    (∀ g : AgeGroups, bucketStep g (-(digitsToNat ds : Int)) =
      { g with g1 := g.g1 + 1 }) ∧
    (∀ i ins : Nat, ∀ sk : List (Nat × String),
      processRows (fun _ _ _ _ _ => none) [rec] i ins sk = (ins + 1, sk)) := by
  have hparse : parseIntJS (jsTrim (jsString (getTop rec "age"))) =
      some (-(digitsToNat ds : Int)) := by
    apply parseIntJS_neg_digits _ ds _ hne hd
    exact hs
  have hpos : (0 : Int) < (digitsToNat ds : Int) := by
    exact_mod_cast Nat.pos_of_ne_zero hnz
  have hroute : ∃ n ad r, routeRecord rec =
      RowOutcome.valid n (-(digitsToNat ds : Int)) ad r := by
    simp only [routeRecord]
    rw [if_neg (by simp [h1, h2])]
    simp only [hparse]
    exact ⟨_, _, _, rfl⟩
  refine ⟨hroute, by omega, ?_, ?_⟩
  · intro g
    exact bucketStep_le20 g _ (by omega)
  · intro i ins sk
    obtain ⟨n, ad, r, hr⟩ := hroute
    simp [processRows, hr]

/-- C10 witness: a record with age `-5` is routed as valid with the
negative age −5, it is inserted when the store succeeds, and −5 lands
in the `<20` bucket. -/
theorem c10_negative_ages_witness :
    jvTruthy (getName2
      [("name", Jv.obj [("firstName", Jv.str "A"), ("lastName", Jv.str "B")]),
       ("age", Jv.str "-5")] "name" "firstName") = true ∧
    jvTruthy (getName2
      [("name", Jv.obj [("firstName", Jv.str "A"), ("lastName", Jv.str "B")]),
       ("age", Jv.str "-5")] "name" "lastName") = true ∧
    (jsTrim (jsString (getTop
      [("name", Jv.obj [("firstName", Jv.str "A"), ("lastName", Jv.str "B")]),
       ("age", Jv.str "-5")] "age"))).data = '-' :: ['5'] ∧
    digitsToNat ['5'] ≠ 0 ∧
    ((∃ n ad r, routeRecord
        [("name", Jv.obj [("firstName", Jv.str "A"), ("lastName", Jv.str "B")]),
         ("age", Jv.str "-5")] =
        RowOutcome.valid n (-(digitsToNat ['5'] : Int)) ad r) ∧
      (-(digitsToNat ['5'] : Int) < 0) ∧
      (∀ g : AgeGroups, bucketStep g (-(digitsToNat ['5'] : Int)) =
        { g with g1 := g.g1 + 1 }) ∧
      (∀ i ins : Nat, ∀ sk : List (Nat × String),
        processRows (fun _ _ _ _ _ => none)
          [[("name", Jv.obj [("firstName", Jv.str "A"), ("lastName", Jv.str "B")]),
            ("age", Jv.str "-5")]] i ins sk = (ins + 1, sk))) :=
  ⟨rfl, rfl, rfl, by decide,
    c10_negative_ages
      [("name", Jv.obj [("firstName", Jv.str "A"), ("lastName", Jv.str "B")]),
       ("age", Jv.str "-5")] ['5'] rfl rfl rfl (by decide) (by decide) (by decide)⟩

/-- C7: for every non-empty list of stored ages, the reporter's four
buckets (`age ≤ 20`, `20 < age ≤ 40`, `40 < age ≤ 60`, `age > 60`) are
exhaustive and mutually exclusive — the four counts sum to the total —
and each bucket's percentage is the count over the total times 100,
rounded half-up (the reporter's `(200·c+t)/(2t)` equals the floor of
`c/t·100 + 1/2`). -/
theorem c7_age_distribution (ages : List Int) (h : ages ≠ []) :
    (countGroups ages).g1 + (countGroups ages).g2 + (countGroups ages).g3 +
      (countGroups ages).g4 = ages.length ∧
    ageDistribution ages = some
      (jsRoundPct (countGroups ages).g1 ages.length,
       jsRoundPct (countGroups ages).g2 ages.length,
       jsRoundPct (countGroups ages).g3 ages.length,
       jsRoundPct (countGroups ages).g4 ages.length) ∧
    (∀ c : Nat, jsRoundPct c ages.length = specRoundHalfUp c ages.length) := by
  have hlen : ages.length ≠ 0 := by
    simpa [List.length_eq_zero] using h
  refine ⟨countGroups_sum ages, ?_, ?_⟩
  · unfold ageDistribution
    rw [if_neg hlen]
  · intro c
    exact jsRoundPct_eq_specRoundHalfUp c ages.length (Nat.pos_of_ne_zero hlen)

/-- C7 witness: Scenario D — the ages 15, 25, 45, 70 put one age in each
bucket and every bucket reports 25%. -/
theorem c7_age_distribution_witness :
    ([15, 25, 45, 70] : List Int) ≠ [] ∧
    ((countGroups [15, 25, 45, 70]).g1 + (countGroups [15, 25, 45, 70]).g2 +
        (countGroups [15, 25, 45, 70]).g3 + (countGroups [15, 25, 45, 70]).g4 =
      ([15, 25, 45, 70] : List Int).length ∧
      ageDistribution [15, 25, 45, 70] = some
        (jsRoundPct (countGroups [15, 25, 45, 70]).g1 ([15, 25, 45, 70] : List Int).length,
         jsRoundPct (countGroups [15, 25, 45, 70]).g2 ([15, 25, 45, 70] : List Int).length,
         jsRoundPct (countGroups [15, 25, 45, 70]).g3 ([15, 25, 45, 70] : List Int).length,
         jsRoundPct (countGroups [15, 25, 45, 70]).g4 ([15, 25, 45, 70] : List Int).length) ∧
      (∀ c : Nat, jsRoundPct c ([15, 25, 45, 70] : List Int).length =
        specRoundHalfUp c ([15, 25, 45, 70] : List Int).length)) ∧
    ageDistribution [15, 25, 45, 70] = some (25, 25, 25, 25) :=
  ⟨by decide, c7_age_distribution [15, 25, 45, 70] (by decide), rfl⟩

/-- C3 counterexample: distinctness of header keys is not enough for the
round-trip.  With the distinct headers `a` and `a.b` and the row `x,y`,
assigning `a.b` overwrites the scalar already stored at `a`, so reading
back the dot path `a` yields the nested object, not the original field
`x`. -/
theorem c3_counterexample :
    ("a" : String) ≠ "a.b" ∧
    (parseCSV ("a,a.b\nx,y")).1 = ["a", "a.b"] ∧
    (splitCSVLine ("x,y")).length = 2 ∧
    (parseCSV ("a,a.b\nx,y")).2 = [[("a", Jv.obj [("b", Jv.str "y")])]] ∧
    objGetPath (Jv.obj [("a", Jv.obj [("b", Jv.str "y")])]) (pathOf ("a")) ≠
      some (Jv.str "x") :=
  ⟨by decide, rfl, rfl, rfl, fun h => Jv.noConfusion (Option.some.inj h)⟩

/-- C3 (amended): for CSV text whose header dot paths are pairwise
independent (no key is a dot-path prefix of another — in particular all
distinct) and whose data rows have exactly as many fields as the header,
every built record comes from some data line, and reading back each
header's dot path yields exactly that line's trimmed field values. -/
theorem c3_roundtrip (t : String)
    (hind : (((parseCSV t).1).map pathOf).Pairwise indepPath)
    (hlen : ∀ line ∈ dataLinesOf t,
      (splitCSVLine line).length = (parseCSV t).1.length) :
    ∀ rec ∈ (parseCSV t).2, ∃ line ∈ dataLinesOf t,
      rec = buildRow (parseCSV t).1 (splitCSVLine line) ∧
      ∀ kf ∈ ((parseCSV t).1).zip (splitCSVLine line),
        objGetPath (Jv.obj rec) (pathOf kf.1) = some (Jv.str kf.2) := by
  intro rec hrec
  obtain ⟨line, hline, hrec_eq⟩ := parseCSV_record_mem t rec hrec
  refine ⟨line, hline, hrec_eq, ?_⟩
  intro kf hkf
  have hl := hlen line hline
  rw [hrec_eq]
  apply buildRow_read _ _ hind (fun hlt => absurd hlt (by omega))
  have h0 : (parseCSV t).1.length - (splitCSVLine line).length = 0 := by omega
  simpa [h0] using hkf

/-- C3 witness: the Scenario A text with nested name keys and an age
column round-trips every field of its single data row. -/
theorem c3_roundtrip_witness :
    (((parseCSV ("name.firstName,name.lastName,age\nRohit,Prasad,35")).1).map
      pathOf).Pairwise indepPath ∧
    (∀ line ∈ dataLinesOf ("name.firstName,name.lastName,age\nRohit,Prasad,35"),
      (splitCSVLine line).length =
        (parseCSV ("name.firstName,name.lastName,age\nRohit,Prasad,35")).1.length) ∧
    (∀ rec ∈ (parseCSV ("name.firstName,name.lastName,age\nRohit,Prasad,35")).2,
      ∃ line ∈ dataLinesOf ("name.firstName,name.lastName,age\nRohit,Prasad,35"),
        rec = buildRow
          (parseCSV ("name.firstName,name.lastName,age\nRohit,Prasad,35")).1
          (splitCSVLine line) ∧
        ∀ kf ∈ ((parseCSV ("name.firstName,name.lastName,age\nRohit,Prasad,35")).1).zip
            (splitCSVLine line),
          objGetPath (Jv.obj rec) (pathOf kf.1) = some (Jv.str kf.2)) :=
  ⟨by decide, by decide,
    c3_roundtrip ("name.firstName,name.lastName,age\nRohit,Prasad,35")
      (by decide) (by decide)⟩

/-- C9 counterexample: with the single header `__extras` and a two-field
row `x,y`, the surplus-collection step overwrites the header-addressed
value — the built record holds only the synthetic extras node, and
reading back the header path `__extras` does not yield the field `x`,
so "contains all n header-addressed values" fails as universally
stated. -/
theorem c9_counterexample :
    buildRow ["__extras"] ["x", "y"] =
      [("__extras", Jv.obj [("_extra_1", Jv.str "y")])] ∧
    objGetPath (Jv.obj (buildRow ["__extras"] ["x", "y"]))
      (pathOf ("__extras")) ≠ some (Jv.str "x") :=
  ⟨rfl, fun h => Jv.noConfusion (Option.some.inj h)⟩

/-- C9 (amended): for headers with pairwise independent dot paths whose
first segment is not `__extras` when the row overflows, a longer row
keeps all header-addressed values and stores every surplus field under
`__extras`, keyed `_extra_1` … `_extra_(m−n)` in positional order; a
shorter row never fails and every missing trailing header position
reads back as the empty string. -/
theorem c9_overflow_padding (headers fields : List String)
    (hind : (headers.map pathOf).Pairwise indepPath)
    (hx : headers.length < fields.length →
      ∀ k ∈ headers, (pathOf k).head? ≠ some "__extras") :
    (∀ kf ∈ headers.zip
        (fields ++ List.replicate (headers.length - fields.length) ""),
      objGetPath (Jv.obj (buildRow headers fields)) (pathOf kf.1) =
        some (Jv.str kf.2)) ∧
    (headers.length < fields.length →
      objGet (buildRow headers fields) "__extras" =
        some (Jv.obj (extrasOf (fields.drop headers.length))) ∧
      (extrasOf (fields.drop headers.length)).length =
        fields.length - headers.length ∧
      ∀ j : Nat, ∀ hj : j < fields.length - headers.length,
        (extrasOf (fields.drop headers.length)).get
            ⟨j, by rw [extrasOf_length]; simpa using hj⟩ =
          ("_extra_" ++ toString (j + 1),
            Jv.str ((fields.drop headers.length).get ⟨j, by simpa using hj⟩))) ∧
    (∀ i : Nat, fields.length ≤ i → ∀ hi : i < headers.length,
      objGetPath (Jv.obj (buildRow headers fields))
        (pathOf (headers.get ⟨i, hi⟩)) = some (Jv.str "")) := by
  refine ⟨buildRow_read headers fields hind hx, ?_, ?_⟩
  · intro hlt
    refine ⟨buildRow_extras headers fields hlt, by simp [extrasOf_length], ?_⟩
    intro j hj
    rw [extrasOf_get]
  · intro i him hi
    have hpadlen : (fields ++ List.replicate
        (headers.length - fields.length) "").length = headers.length := by
      simp
      omega
    have hizip : i < (headers.zip (fields ++ List.replicate
        (headers.length - fields.length) "")).length := by
      rw [List.length_zip, hpadlen]
      omega
    have hkf := List.get_mem (headers.zip (fields ++ List.replicate
      (headers.length - fields.length) "")) i hizip
    have hfst : ((headers.zip (fields ++ List.replicate
        (headers.length - fields.length) "")).get ⟨i, hizip⟩).1 =
        headers.get ⟨i, hi⟩ := by
      simp [List.get_eq_getElem, List.getElem_zip]
    have hsnd : ((headers.zip (fields ++ List.replicate
        (headers.length - fields.length) "")).get ⟨i, hizip⟩).2 = "" := by
      simp only [List.get_eq_getElem, List.getElem_zip]
      rw [List.getElem_append_right him]
      simp
    have hread := buildRow_read headers fields hind hx _ hkf
    rw [hfst, hsnd] at hread
    exact hread

/-- C9 witness: headers `a`, `b.c` with the four-field row `1,2,3,4` —
the header paths read back their fields and the two surplus values are
kept under `__extras`. -/
theorem c9_overflow_padding_witness :
    ((["a", "b.c"] : List String).map pathOf).Pairwise indepPath ∧
    ((["a", "b.c"] : List String).length < (["1", "2", "3", "4"] : List String).length) ∧
    objGetPath (Jv.obj (buildRow ["a", "b.c"] ["1", "2", "3", "4"]))
      (pathOf ("a")) = some (Jv.str "1") ∧
    objGet (buildRow ["a", "b.c"] ["1", "2", "3", "4"]) "__extras" =
      some (Jv.obj (extrasOf ((["1", "2", "3", "4"] : List String).drop 2))) :=
  ⟨by decide, by decide,
    (c9_overflow_padding ["a", "b.c"] ["1", "2", "3", "4"] (by decide)
      (by decide)).1 ("a", "1") (by decide),
    ((c9_overflow_padding ["a", "b.c"] ["1", "2", "3", "4"] (by decide)
      (by decide)).2.1 (by decide)).1⟩
